import Mathlib

/-!
A shallow embedding of `src/emulator.py` (an in-memory virtual-filesystem
shell emulator) together with proofs about its path-resolution algorithm,
VFS tree operations, CSV tabular loader, command interpreter and script
runner.  Python strings are modelled as `List Char`; Python dicts of
children as insertion-ordered association lists; Python exceptions as an
explicit `Err` type.
-/

namespace Emu

/-- A path / text value, modelling a Python `str` as its character list. -/
abbrev Str := List Char

/-- The set of characters Python's `str.strip()` / `str.isspace()` treats as
whitespace (ASCII whitespace, the C1 separators, and the Unicode space
characters). -/
def pyIsSpace (c : Char) : Bool :=
  let n := c.toNat
  (9 ≤ n && n ≤ 13) || (28 ≤ n && n ≤ 31) || n == 32 || n == 0x85 ||
  n == 0xa0 || n == 0x1680 || (0x2000 ≤ n && n ≤ 0x200a) || n == 0x2028 ||
  n == 0x2029 || n == 0x202f || n == 0x205f || n == 0x3000

/-- Python `str.strip()`: remove leading and trailing whitespace. -/
def stripList (l : Str) : Str :=
  ((l.dropWhile pyIsSpace).reverse.dropWhile pyIsSpace).reverse

/-- Remove trailing whitespace only (helper for stating C8's side condition). -/
def rstripSpaces (l : Str) : Str :=
  (l.reverse.dropWhile pyIsSpace).reverse

/-- Python `str.split(sep)` for a one-character separator: split on every
occurrence, keeping empty pieces (`"a//b".split("/") == ["a","","b"]`). -/
def splitOnC (sep : Char) : Str → List Str
  | [] => [[]]
  | c :: cs =>
    if c = sep then [] :: splitOnC sep cs
    else
      match splitOnC sep cs with
      | [] => [[c]]
      | t :: ts => (c :: t) :: ts

/-- `sep.join(pieces)` for a one-character separator. -/
def joinC (sep : Char) : List Str → Str
  | [] => []
  | [x] => x
  | x :: xs => x ++ sep :: joinC sep xs

/-- Exceptions raised by the emulator core, tagged with the Python
exception class that carries them.  The spec's taxonomy maps `PathNotFound`
to `KeyError`, `NotADirectory` to `NotADirectoryError`, and
`InvalidArgument` / `UnknownCommand` / `ImportFormatError` / `TreeConflict`
to `ValueError`. -/
inductive Err where
  | keyError (msg : Str)
  | notADirectoryError (msg : Str)
  | valueError (msg : Str)
  | indexError (msg : Str)
deriving DecidableEq

/-! ## Path resolver (`VFS._split`, `VFS.abspath_parts`) -/

/-- Python `path.startswith("/")` on a character list. -/
def startsSlash : Str → Bool
  | [] => false
  | c :: _ => c = '/'

/-- `VFS._split`: strip the path, drop one leading `/`, split on `/`, and
discard empty segments and `.` segments. -/
def vsplit (path : Str) : List Str :=
  let p := stripList path
  let p := if startsSlash p then p.tail else p
  (splitOnC '/' p).filter (fun s => s ≠ [] && s ≠ ['.'])

/-- The left-to-right `..`-popping loop of `VFS.abspath_parts`:  `..` pops
the accumulator's last element when non-empty (clamped at root), any other
segment is appended. -/
def normFold (out : List Str) : List Str → List Str
  | [] => out
  | p :: ps =>
    if p = ['.', '.'] then normFold out.dropLast ps
    else normFold (out ++ [p]) ps

/-- `VFS.abspath_parts`: normalize a raw path string against the current
path, producing the absolute segment sequence. -/
def abspath_parts (cwd_parts : List Str) (path : Str) : List Str :=
  if path = [] ∨ path = ['.'] then cwd_parts
  else
    let parts := if startsSlash path then vsplit path else cwd_parts ++ vsplit path
    normFold [] parts

/-- Render a segment sequence as the absolute path string
`"/" + "/".join(parts)` (as `cmd_ls` and the prompt do). -/
def renderAbs (parts : List Str) : Str :=
  '/' :: joinC '/' parts

/-! ## The VFS tree (`VFSNode`, `VFS`) -/

/-- A `VFSNode`: name, type (`"dir"` or `"file"`), owner, optional base64
content, and an insertion-ordered map from child name to child node
(modelling a Python dict as an association list). -/
inductive VFSNode : Type where
  | mk (name : Str) (type : Str) (owner : Str) (content_b64 : Option Str)
       (children : List (Str × VFSNode)) : VFSNode

def VFSNode.name : VFSNode → Str
  | .mk n _ _ _ _ => n

def VFSNode.type : VFSNode → Str
  | .mk _ t _ _ _ => t

def VFSNode.owner : VFSNode → Str
  | .mk _ _ o _ _ => o

def VFSNode.content_b64 : VFSNode → Option Str
  | .mk _ _ _ c _ => c

def VFSNode.children : VFSNode → List (Str × VFSNode)
  | .mk _ _ _ _ ch => ch

def VFSNode.is_dir (n : VFSNode) : Bool := n.type = "dir".data

def VFSNode.is_file (n : VFSNode) : Bool := n.type = "file".data

/-- Python dict lookup `d.get(k)` on the association list. -/
def lookupC : List (Str × VFSNode) → Str → Option VFSNode
  | [], _ => none
  | (k', v) :: rest, k => if k' = k then some v else lookupC rest k

/-- Python dict assignment `d[k] = v`: replace in place if the key exists,
append otherwise (insertion order preserved). -/
def setChild : List (Str × VFSNode) → Str → VFSNode → List (Str × VFSNode)
  | [], k, n => [(k, n)]
  | (k', v) :: rest, k, n =>
    if k' = k then (k, n) :: rest else (k', v) :: setChild rest k n

/-- Replace the children map of a node. -/
def VFSNode.withChildren : VFSNode → List (Str × VFSNode) → VFSNode
  | .mk nm t o c _, ch => .mk nm t o c ch

/-- Set one child of a node (Python `node.children[k] = v`). -/
def VFSNode.setCh (n : VFSNode) (k : Str) (v : VFSNode) : VFSNode :=
  n.withChildren (setChild n.children k v)

/-- Follow child links through a sequence of segments (pure lookup walk,
no directory check — exactly what `VFS.get`'s loop does). -/
def getAt (cur : VFSNode) : List Str → Option VFSNode
  | [] => some cur
  | p :: ps =>
    match lookupC cur.children p with
    | none => none
    | some c => getAt c ps

/-- The `VFS` wrapper: a display name and the root directory node. -/
structure VFS where
  name : Str
  root : VFSNode

/-- The fresh root node `VFSNode("/", "dir", "root")`. -/
def rootNode : VFSNode := .mk "/".data "dir".data "root".data none []

/-- `VFS.get`'s walking loop, carrying the full intended segment list for
the `KeyError` message. -/
def getGo (allParts : List Str) (cur : VFSNode) : List Str → Except Err VFSNode
  | [] => .ok cur
  | p :: ps =>
    match lookupC cur.children p with
    | none => .error (.keyError ("path not found: ".data ++ renderAbs allParts))
    | some c => getGo allParts c ps

/-- `VFS.get`: normalize the raw path against the current path and walk the
tree; `KeyError` at the first missing segment, naming the full path. -/
def VFS.get (v : VFS) (cwd_parts : List Str) (path : Str) : Except Err VFSNode :=
  let parts := abspath_parts cwd_parts path
  getGo parts v.root parts

/-- Ascending lexicographic comparison on segment lists (Python string
`<` by code points). -/
def strLt : Str → Str → Bool
  | [], [] => false
  | [], _ :: _ => true
  | _ :: _, [] => false
  | a :: as_, b :: bs =>
    if a < b then true else if b < a then false else strLt as_ bs

/-- Stable insertion into an ascending list (Python `sorted`). -/
def sortInsert (x : Str) : List Str → List Str
  | [] => [x]
  | y :: ys => if strLt y x then y :: sortInsert x ys else x :: y :: ys

/-- Python `sorted(keys)`. -/
def sortStrs : List Str → List Str
  | [] => []
  | x :: xs => sortInsert x (sortStrs xs)

/-- `VFS.listdir`: `NotADirectoryError` on a non-directory, otherwise the
child nodes ordered by name ascending. -/
def VFS.listdir (node : VFSNode) : Except Err (List VFSNode) :=
  if node.is_dir then
    .ok ((sortStrs (node.children.map Prod.fst)).filterMap (lookupC node.children))
  else .error (.notADirectoryError "not a directory".data)

/-- `VFS.chdir`: resolve, require a directory, and return the new
normalized absolute path. -/
def VFS.chdir (v : VFS) (cwd_parts : List Str) (path : Str) :
    Except Err (List Str) := do
  let node ← v.get cwd_parts path
  if node.is_dir then .ok (abspath_parts cwd_parts path)
  else .error (.notADirectoryError "not a directory".data)

/-- `VFS._mkdirs` combined with the caller's use of the node it returns:
walk `parts` from `cur`, creating missing directory nodes, erroring with
`ValueError("path conflicts with file")` when an existing segment is not a
directory, and apply `f` to the final node reached. -/
def mkdirsGo (cur : VFSNode) (parts : List Str) (f : VFSNode → VFSNode) :
    Except Err VFSNode :=
  match parts with
  | [] => .ok (f cur)
  | p :: ps =>
    let child := (lookupC cur.children p).getD (.mk p "dir".data "root".data none [])
    if child.is_dir then
      match mkdirsGo child ps f with
      | .ok c' => .ok (cur.setCh p c')
      | .error e => .error e
    else .error (.valueError "path conflicts with file".data)

/-- `VFS.add_dir`: ensure the directory path exists, then set the final
node's owner. -/
def VFS.add_dir (v : VFS) (path : Str) (owner : Str) : Except Err VFS :=
  match mkdirsGo v.root (vsplit path) (fun n =>
      match n with | .mk nm t _ c ch => .mk nm t owner c ch) with
  | .ok r => .ok ⟨v.name, r⟩
  | .error e => .error e

/-- The file node `VFSNode(fname, "file", owner, content_b64 or "")`. -/
def fileNode (fname owner content : Str) : VFSNode :=
  .mk fname "file".data owner (some content) []

/-- `VFS.add_file`: `ValueError` on an empty path; otherwise ensure the
parent directories and insert (or silently overwrite) the file node. -/
def VFS.add_file (v : VFS) (path : Str) (owner : Str) (content : Str) :
    Except Err VFS :=
  let parts := vsplit path
  match parts.getLast? with
  | none => .error (.valueError "empty file path".data)
  | some fname =>
    match mkdirsGo v.root parts.dropLast
        (fun d => d.setCh fname (fileNode fname owner content)) with
    | .ok r => .ok ⟨v.name, r⟩
    | .error e => .error e

/-- `load_default_vfs`: the hard-coded startup tree
(`/home/user/readme.txt`, `/etc`, `/var/log`); its `add_` calls all
succeed, so the `Except` chain is collapsed. -/
def load_default_vfs : VFS :=
  (do
    let v : VFS := ⟨"default".data, rootNode⟩
    let v ← v.add_dir "/home/user".data "user".data
    let v ← v.add_file "/home/user/readme.txt".data "user".data "SGVsbG8gVkZT".data
    let v ← v.add_dir "/etc".data "root".data
    let v ← v.add_dir "/var/log".data "root".data
    pure v).toOption.getD ⟨"default".data, rootNode⟩

/-- `sep.join(items)` for an arbitrary separator string. -/
def joinS (sep : Str) : List Str → Str
  | [] => []
  | [x] => x
  | x :: xs => x ++ sep ++ joinS sep xs

/-- `Shell.cmd_ls`: the given path (or the rendered current directory); a
file resolves to its bare name, a directory to its child names joined by
two spaces with `/` appended to directory names. -/
def cmd_ls (v : VFS) (cwd_parts : List Str) (args : List Str) :
    Except Err Str := do
  let path := match args with
    | [] => renderAbs cwd_parts
    | a :: _ => a
  let node ← v.get cwd_parts path
  if node.is_file then .ok node.name
  else do
    let chs ← VFS.listdir node
    .ok (joinS "  ".data
      (chs.map fun ch => ch.name ++ (if ch.is_dir then ['/'] else [])))

/-! ## Tabular loader (`VFS.from_csv`) -/

/-- Decimal digit character. -/
def digitChar (n : Nat) : Char := Char.ofNat (48 + n % 10)

/-- Digit-producing loop for `natChars`; the fuel argument only bounds the
recursion depth (the digit count never exceeds it). -/
def natCharsAux : Nat → Nat → Str
  | 0, _ => []
  | fuel + 1, n =>
    if n < 10 then [digitChar n]
    else natCharsAux fuel (n / 10) ++ [digitChar (n % 10)]

/-- Decimal rendering of a natural number (Python `str(int)` for
non-negative values). -/
def natChars (n : Nat) : Str := natCharsAux (n + 1) n

/-- Value of a base64 alphabet character, `none` for everything else. -/
def b64CharVal (c : Char) : Option Nat :=
  if 'A' ≤ c ∧ c ≤ 'Z' then some (c.toNat - 65)
  else if 'a' ≤ c ∧ c ≤ 'z' then some (c.toNat - 71)
  else if '0' ≤ c ∧ c ≤ '9' then some (c.toNat + 4)
  else if c = '+' then some 62
  else if c = '/' then some 63
  else none

/-- CPython `binascii.a2b_base64` in non-strict mode (what
`base64.b64decode` calls), reduced to its accept/reject behaviour: walk the
characters keeping the position in the current quad and the count of
consecutive `=` pads; non-alphabet characters are skipped; two pads close a
quad of two data characters (one pad a quad of three); at the end the quad
position must be zero.  `base64.b64decode(c)` succeeds iff this is true. -/
def b64Loop (qp pads : Nat) : Str → Bool
  | [] => qp == 0
  | c :: cs =>
    if c = '=' then
      if 2 ≤ qp then
        if 4 ≤ qp + (pads + 1) then true
        else b64Loop qp (pads + 1) cs
      else b64Loop qp pads cs
    else
      match b64CharVal c with
      | none => b64Loop qp pads cs
      | some _ => b64Loop ((qp + 1) % 4) 0 cs

/-- Whether `base64.b64decode(s.encode("utf-8"))` succeeds. -/
def b64Valid (s : Str) : Bool := b64Loop 0 0 s

/-- Index of the last occurrence of a column name in the header (the one
`dict(zip(fieldnames, row))` lets win). -/
def lastIdxOf : List Str → Str → Option Nat
  | [], _ => none
  | x :: xs, c =>
    match lastIdxOf xs c with
    | some i => some (i + 1)
    | none => if x = c then some 0 else none

/-- `csv.DictReader`'s value of a column in a record: the field at the
column's (last) header position, `None` when the record is too short or the
column is absent. -/
def colValue (fns : List Str) (record : List Str) (col : Str) : Option Str :=
  (lastIdxOf fns col).bind (record.get? ·)

/-- Python `x or d` for an optional string: `d` when `x` is `None` or
empty. -/
def orDefault (x : Option Str) (d : Str) : Str :=
  match x with
  | none => d
  | some s => if s = [] then d else s

/-- The error message `f"row {i}: bad values"`. -/
def badValuesMsg (i : Nat) : Str :=
  "row ".data ++ natChars i ++ ": bad values".data

/-- The error message `f"row {i}: content_b64 not valid base64"`. -/
def badB64Msg (i : Nat) : Str :=
  "row ".data ++ natChars i ++ ": content_b64 not valid base64".data

/-- Processing of one (non-blank) data record of the CSV body, numbered
`i`: trim the fields, reject bad `path`/`type` values, validate a present
`content_b64` value of a file row, and perform the `add_dir`/`add_file`
call. -/
def rowStep (fns : List Str) (i : Nat) (v : VFS) (record : List Str) :
    Except Err VFS :=
  let p := stripList (orDefault (colValue fns record "path".data) [])
  let t := stripList (orDefault (colValue fns record "type".data) [])
  let o := stripList (orDefault (colValue fns record "owner".data) "root".data)
  let c := stripList (orDefault (colValue fns record "content_b64".data) [])
  if p = [] ∨ ¬(t = "dir".data ∨ t = "file".data) then
    .error (.valueError (badValuesMsg i))
  else if t = "dir".data then v.add_dir p o
  else
    if c ≠ [] ∧ b64Valid c = false then .error (.valueError (badB64Msg i))
    else v.add_file p o c

/-- The row loop of `from_csv`: `enumerate(r, 2)` over the non-blank data
records (`DictReader` skips empty records without numbering them),
aborting on the first failing row.  Returns the next row number together
with the built tree. -/
def fromCsvAux (fns : List Str) : Nat → VFS → List (List Str) →
    Except Err (Nat × VFS)
  | i, v, [] => .ok (i, v)
  | i, v, r :: rs =>
    if r = [] then fromCsvAux fns i v rs
    else
      match rowStep fns i v r with
      | .ok v' => fromCsvAux fns (i + 1) v' rs
      | .error e => .error e

/-- The header error `ValueError("bad CSV header: need path,type,owner[,content_b64]")`. -/
def hdrMsg : Str := "bad CSV header: need path,type,owner[,content_b64]".data

/-- `VFS.from_csv` after the file has been parsed into records: the first
record is the header (required columns `path`, `type`, `owner`), the rest
are data rows processed strictly in order. -/
def from_csv (nm : Str) (records : List (List Str)) : Except Err VFS :=
  match records with
  | [] => .error (.valueError hdrMsg)
  | hdr :: rest =>
    if "path".data ∈ hdr ∧ "type".data ∈ hdr ∧ "owner".data ∈ hdr then
      (fromCsvAux hdr 2 ⟨nm, rootNode⟩ rest).map Prod.snd
    else .error (.valueError hdrMsg)

/-! ## Command interpreter (`Shell`) -/

/-- Two lowercase hex digits of a byte. -/
def hex2 (n : Nat) : Str :=
  let d := fun k => if k < 10 then Char.ofNat (48 + k) else Char.ofNat (87 + k)
  [d (n / 16 % 16), d (n % 16)]

/-- Python `repr` of a string (as `str(KeyError(...))` prints it): quote
with `'` unless the text contains `'` but no `"`; escape the backslash, the
quote, and control characters. -/
def pyRepr (s : Str) : Str :=
  let q : Char := if '\'' ∈ s ∧ ¬ '"' ∈ s then '"' else '\''
  let esc := fun (c : Char) =>
    if c = '\\' then ['\\', '\\']
    else if c = q then ['\\', q]
    else if c = '\n' then ['\\', 'n']
    else if c = '\r' then ['\\', 'r']
    else if c = '\t' then ['\\', 't']
    else if c.toNat < 32 ∨ c.toNat = 127 then '\\' :: 'x' :: hex2 c.toNat
    else [c]
  q :: (s.map esc).flatten ++ [q]

/-- Python `str(e)` for the exceptions the emulator raises: `KeyError`
shows the `repr` of its argument, the others the plain message. -/
def strOfErr : Err → Str
  | .keyError m => pyRepr m
  | .notADirectoryError m => m
  | .valueError m => m
  | .indexError m => m

/-- The `f"error: {e}"` line the App prints for a failed command. -/
def errLine (e : Err) : Str := "error: ".data ++ strOfErr e

/-- `\w` of `os.path.expandvars`'s ASCII regex: `[A-Za-z0-9_]`. -/
def isWordChar (c : Char) : Bool :=
  ('A' ≤ c && c ≤ 'Z') || ('a' ≤ c && c ≤ 'z') || ('0' ≤ c && c ≤ '9') || c = '_'

/-- Longest leading `\w+` run: the variable name and the remainder. -/
def takeWord : Str → Str × Str
  | [] => ([], [])
  | c :: cs =>
    if isWordChar c then
      let (w, r) := takeWord cs
      (c :: w, r)
    else ([], c :: cs)

/-- Split at the first `}`: the text before it and the text after, `none`
when there is no `}` (so `${…` never matches the regex). -/
def takeToBrace : Str → Option (Str × Str)
  | [] => none
  | c :: cs =>
    if c = '}' then some ([], cs)
    else
      match takeToBrace cs with
      | some (nm, after) => some (c :: nm, after)
      | none => none

/-- Environment lookup (first binding of the name). -/
def lookupEnv (vars : List (Str × Str)) (nm : Str) : Option Str :=
  match vars with
  | [] => none
  | (k, v) :: rest => if k = nm then some v else lookupEnv rest nm

/-- The scan of `os.path.expandvars` (posix flavour): replace `$NAME` and
`${NAME}` by the environment value, leave unknown references untouched, and
never rescan substituted text.  The fuel argument only bounds the recursion
depth; `input.length` steps always suffice since every step consumes at
least one input character. -/
def expandVarsAux (vars : List (Str × Str)) : Nat → Str → Str
  | 0, rest => rest
  | _ + 1, [] => []
  | fuel + 1, '$' :: rest =>
    match rest with
    | '{' :: r2 =>
      (match takeToBrace r2 with
       | some (nm, after) =>
         (match lookupEnv vars nm with
          | some v => v ++ expandVarsAux vars fuel after
          | none => '$' :: '{' :: (nm ++ '}' :: expandVarsAux vars fuel after))
       | none => '$' :: expandVarsAux vars fuel ('{' :: r2))
    | _ =>
      let (w, after) := takeWord rest
      if w = [] then '$' :: expandVarsAux vars fuel rest
      else
        match lookupEnv vars w with
        | some v => v ++ expandVarsAux vars fuel after
        | none => '$' :: (w ++ expandVarsAux vars fuel after)
  | fuel + 1, c :: rest => c :: expandVarsAux vars fuel rest

/-- `os.path.expandvars` over an explicit environment snapshot. -/
def expandVars (vars : List (Str × Str)) (s : Str) : Str :=
  expandVarsAux vars s.length s

/-- The whitespace set of `shlex` (`' \t\r\n'`). -/
def isShWS (c : Char) : Bool := c = ' ' || c = '\t' || c = '\r' || c = '\n'

/-- States of the `shlex` POSIX lexer as configured by `shlex.split`:
between tokens, inside a word, inside single/double quotes, and after a
backslash seen in word context / inside double quotes. -/
inductive LexSt where
  | ws | word | sq | dq | escW | escD

/-- `shlex.split(s, posix=True)` (whitespace-split, no comments): single
quotes preserve everything, double quotes let a backslash escape only `"`
and `\`, a backslash outside quotes escapes any character, and a quoted
empty token is kept.  `ValueError` on an unterminated quote or a trailing
backslash. -/
def shlexGo (st : LexSt) (tok : Str) (quoted : Bool) :
    Str → Except Err (List Str)
  | [] =>
    match st with
    | .ws => .ok []
    | .word => .ok (if tok = [] ∧ quoted = false then [] else [tok])
    | .sq => .error (.valueError "No closing quotation".data)
    | .dq => .error (.valueError "No closing quotation".data)
    | .escW => .error (.valueError "No escaped character".data)
    | .escD => .error (.valueError "No escaped character".data)
  | c :: cs =>
    match st with
    | .ws =>
      if isShWS c then shlexGo .ws [] false cs
      else if c = '\\' then shlexGo .escW [] false cs
      else if c = '\'' then shlexGo .sq [] false cs
      else if c = '"' then shlexGo .dq [] false cs
      else shlexGo .word [c] false cs
    | .word =>
      if isShWS c then
        if tok = [] ∧ quoted = false then shlexGo .ws [] false cs
        else (shlexGo .ws [] false cs).map (tok :: ·)
      else if c = '\'' then shlexGo .sq tok quoted cs
      else if c = '"' then shlexGo .dq tok quoted cs
      else if c = '\\' then shlexGo .escW tok quoted cs
      else shlexGo .word (tok ++ [c]) quoted cs
    | .sq =>
      if c = '\'' then shlexGo .word tok true cs
      else shlexGo .sq (tok ++ [c]) true cs
    | .dq =>
      if c = '"' then shlexGo .word tok true cs
      else if c = '\\' then shlexGo .escD tok true cs
      else shlexGo .dq (tok ++ [c]) true cs
    | .escW => shlexGo .word (tok ++ [c]) quoted cs
    | .escD =>
      shlexGo .dq (tok ++ (if c = '"' ∨ c = '\\' then [c] else ['\\', c])) true cs

/-- `shlex.split(s, posix=True)`. -/
def shlexSplit (s : Str) : Except Err (List Str) := shlexGo .ws [] false s

/-! ## The `cal` command (`calendar.TextCalendar.formatmonth`) -/

/-- Python floor division. -/
def pyfdiv (a b : Int) : Int := Int.fdiv a b

/-- Python `%` (sign of the divisor). -/
def pymod (a b : Int) : Int := Int.fmod a b

/-- `calendar.isleap`. -/
def isleap (y : Int) : Bool :=
  pymod y 4 == 0 && (pymod y 100 != 0 || pymod y 400 == 0)

/-- Decimal rendering of an integer (Python `str(int)` / `%r`). -/
def intChars (i : Int) : Str :=
  if i < 0 then '-' :: natChars i.natAbs else natChars i.toNat

/-- Days of the (non-leap) months, `calendar.mdays` style, index 1–12. -/
def mdaysOf (m : Int) : Nat :=
  [0, 31, 28, 31, 30, 31, 30, 31, 31, 30, 31, 30, 31].getD m.toNat 0

/-- Day count of the proleptic Gregorian calendar from 1970-01-01
(Howard Hinnant's civil-days algorithm), used to model
`datetime.date(y, m, d).weekday()`. -/
def daysFromCivil (y m d : Int) : Int :=
  let y' := if m ≤ 2 then y - 1 else y
  let era := pyfdiv y' 400
  let yoe := y' - era * 400
  let mp := pymod (m + 9) 12
  let doy := pyfdiv (153 * mp + 2) 5 + d - 1
  let doe := yoe * 365 + pyfdiv yoe 4 - pyfdiv yoe 100 + doy
  era * 146097 + doe - 719468

/-- `calendar.weekday` (Monday = 0), including its normalization of years
outside `datetime`'s range to `2000 + year % 400`. -/
def pyWeekday (y m d : Int) : Int :=
  let yn := if 1 ≤ y ∧ y ≤ 9999 then y else 2000 + pymod y 400
  pymod (daysFromCivil yn m d + 3) 7

/-- `calendar.monthrange`: weekday of the first day and number of days;
`IllegalMonthError` (a `ValueError`) for a month outside 1–12. -/
def monthrangeE (y m : Int) : Except Err (Int × Nat) :=
  if 1 ≤ m ∧ m ≤ 12 then
    .ok (pyWeekday y m 1,
         mdaysOf m + (if m = 2 ∧ isleap y then 1 else 0))
  else
    .error (.valueError ("bad month number ".data ++ intChars m ++
                         "; must be 1-12".data))

/-- `calendar.month_name[m]` for `m` in 1–12 (C locale). -/
def monthName (m : Int) : Str :=
  (["January", "February", "March", "April", "May", "June", "July",
    "August", "September", "October", "November", "December"].getD
      (m.toNat - 1) "").data

/-- Split a day-cell list into weeks of seven (`monthdays2calendar`'s
slicing); the fuel argument only bounds the recursion depth. -/
def chunk7Aux : Nat → List Nat → List (List Nat)
  | 0, _ => []
  | _ + 1, [] => []
  | fuel + 1, l => l.take 7 :: chunk7Aux fuel (l.drop 7)

def chunks7 (l : List Nat) : List (List Nat) := chunk7Aux l.length l

/-- `str.center(width)`. -/
def centerIn (width : Nat) (s : Str) : Str :=
  if width ≤ s.length then s
  else
    let marg := width - s.length
    let left := marg / 2 + (marg &&& width &&& 1)
    List.replicate left ' ' ++ s ++ List.replicate (marg - left) ' '

/-- `TextCalendar.formatday` at width 2: blank for a padding cell,
otherwise `'%2i' % day`. -/
def fmtDay (d : Nat) : Str :=
  if d = 0 then "  ".data
  else if d < 10 then [' ', digitChar d]
  else natChars d

/-- `TextCalendar.formatmonth(y, m)`: centered month-name line, weekday
header, and the Monday-first week grid, each line right-stripped and
newline-terminated.  A month beyond `month_name`'s index range (≥ 13 or
≤ −14) raises `IndexError` from `formatmonthname` before any validation;
other out-of-range months reach `monthrange`'s `IllegalMonthError`. -/
def formatMonthE (y m : Int) : Except Err Str := do
  if 13 ≤ m ∨ m ≤ -14 then
    throw (.indexError "list index out of range".data)
  let (d1, nd) ← monthrangeE y m
  let lead := d1.toNat
  let cells := List.replicate lead 0 ++ (List.range nd).map (· + 1)
  let cells := cells ++ List.replicate ((7 - cells.length % 7) % 7) 0
  let weeks := chunks7 cells
  .ok (rstripSpaces (centerIn 20 (monthName m ++ [' '] ++ intChars y)) ++ ['\n']
    ++ "Mo Tu We Th Fr Sa Su".data ++ ['\n']
    ++ (weeks.map fun w =>
          rstripSpaces (joinS [' '] (w.map fmtDay)) ++ ['\n']).flatten)

/-- Digit-and-underscore tail of a Python integer literal (single
underscores allowed between digits only). -/
def digsGo (acc : Nat) : Str → Option Nat
  | [] => some acc
  | '_' :: c :: cs =>
    if c.isDigit then digsGo (acc * 10 + (c.toNat - 48)) cs else none
  | '_' :: [] => none
  | c :: cs =>
    if c.isDigit then digsGo (acc * 10 + (c.toNat - 48)) cs else none

/-- Non-empty digit sequence starting with a digit. -/
def digitsVal : Str → Option Nat
  | [] => none
  | c :: cs => if c.isDigit then digsGo (c.toNat - 48) cs else none

/-- Python `int(s)` in base 10 (ASCII digits): strip, optional sign,
digits with underscores; `ValueError` naming the repr of the original
string otherwise. -/
def pyInt (s : Str) : Except Err Int :=
  let t := stripList s
  let res : Option Int :=
    match t with
    | '-' :: rest => (digitsVal rest).map (fun n => -(n : Int))
    | '+' :: rest => (digitsVal rest).map (fun n => (n : Int))
    | _ => (digitsVal t).map (fun n => (n : Int))
  match res with
  | some n => .ok n
  | none =>
    .error (.valueError ("invalid literal for int() with base 10: ".data ++
                         pyRepr s))

/-! ## Dispatch (`Shell.run`) and the script runner (`App.run_script`) -/

/-- The ambient state the Shell reads besides the tree: the process
environment (for `$VAR` expansion), today's date (for bare `cal`) and the
session identity. -/
structure ShEnv where
  vars : List (Str × Str)
  todayY : Int
  todayM : Int
  user : Str

/-- `Shell.cmd_cd`: exactly one argument, then `VFS.chdir`. -/
def cmd_cd (v : VFS) (cwd_parts : List Str) (args : List Str) :
    Except Err (List Str) :=
  match args with
  | [a] => v.chdir cwd_parts a
  | _ => .error (.valueError "cd: expected 1 argument".data)

/-- `Shell.cmd_whoami`: no arguments, returns the session identity. -/
def cmd_whoami (env : ShEnv) (args : List Str) : Except Err Str :=
  match args with
  | [] => .ok env.user
  | _ => .error (.valueError "whoami: no arguments expected".data)

/-- `Shell.cmd_cal`: current month for no argument, `YYYY-MM` (length 7,
dash at index 4) for one argument, usage error otherwise. -/
def cmd_cal (env : ShEnv) (args : List Str) : Except Err Str :=
  match args with
  | [] => formatMonthE env.todayY env.todayM
  | [a] =>
    if a.length = 7 ∧ a.get? 4 = some '-' then
      match splitOnC '-' a with
      | [yS, mS] => do
        let y ← pyInt yS
        let mth ← pyInt mS
        formatMonthE y mth
      | l =>
        .error (.valueError
          (if l.length < 2 then "not enough values to unpack (expected 2, got 1)".data
           else "too many values to unpack (expected 2)".data))
    else .error (.valueError "cal: usage: cal [YYYY-MM]".data)
  | _ => .error (.valueError "cal: usage: cal [YYYY-MM]".data)

/-- `Shell.cmd_rev`: each argument reversed, rejoined with single
spaces. -/
def cmd_rev (args : List Str) : Except Err Str :=
  match args with
  | [] => .error (.valueError "rev: usage: rev <text>".data)
  | _ => .ok (joinS [' '] (args.map List.reverse))

/-- Outcome of one `Shell.run` call: a result string together with the
session's (possibly updated) current path, a raised exception, or the
`SystemExit` control signal of `exit`. -/
inductive RunRes where
  | ok (out : Str) (cwd : List Str)
  | err (e : Err)
  | exit
deriving DecidableEq

/-- Wrap a read-only command's result: the current path is untouched. -/
def toRR (cwd : List Str) : Except Err Str → RunRes
  | .ok s => .ok s cwd
  | .error e => .err e

/-- `Shell.run`: strip the line, expand `$`-variables, tokenize with
`shlex`; an empty token list yields `""`; `exit` raises `SystemExit`; the
first token picks one of the five `cmd_` handlers, anything else is
`unknown command`. -/
def run (env : ShEnv) (v : VFS) (cwd : List Str) (line : Str) : RunRes :=
  match shlexSplit (expandVars env.vars (stripList line)) with
  | .error e => .err e
  | .ok [] => .ok [] cwd
  | .ok (cmd :: args) =>
    if cmd = "exit".data then .exit
    else if cmd = "ls".data then toRR cwd (cmd_ls v cwd args)
    else if cmd = "cd".data then
      match cmd_cd v cwd args with
      | .ok c => .ok [] c
      | .error e => .err e
    else if cmd = "whoami".data then toRR cwd (cmd_whoami env args)
    else if cmd = "cal".data then toRR cwd (cmd_cal env args)
    else if cmd = "rev".data then toRR cwd (cmd_rev args)
    else .err (.valueError ("unknown command: ".data ++ cmd))

/-- The prompt string `f"{vfs.name}:{path}$ "`. -/
def promptStr (v : VFS) (cwd : List Str) : Str :=
  v.name ++ [':'] ++ renderAbs cwd ++ ['$', ' ']

/-- Python `raw.rstrip("\n")`. -/
def rstripNl (l : Str) : Str := (l.reverse.dropWhile (· = '\n')).reverse

/-- `App.run_script`: the printed lines.  Each line is stripped of
trailing newlines; blank lines are skipped silently; otherwise the prompt
plus line is echoed and the line run — a non-empty result is printed,
`exit` stops cleanly, and any error prints `error: <message>` and aborts
the whole script. -/
def runScript (env : ShEnv) (v : VFS) (cwd : List Str) :
    List Str → List Str
  | [] => []
  | raw :: rest =>
    let line := rstripNl raw
    if stripList line = [] then runScript env v cwd rest
    else
      let echo := promptStr v cwd ++ line
      match run env v cwd line with
      | .ok out cwd' =>
        echo :: (if out = [] then [] else [out]) ++ runScript env v cwd' rest
      | .exit => [echo]
      | .err e => [echo, errLine e]

/-- A fixed concrete environment snapshot for the closed end-to-end
theorems (no variables set, today = 2024-01, user `"user"`). -/
def demoEnv : ShEnv := ⟨[], 2024, 1, "user".data⟩

/-- Whether an `ls` outcome is a `NotADirectoryError` (of any message). -/
def isNotADirErr : Except Err Str → Bool
  | .error (.notADirectoryError _) => true
  | _ => false

/-- Every prefix node of the segment path exists and is a directory. -/
def dirPathOkB (cur : VFSNode) : List Str → Bool
  | [] => true
  | p :: ps =>
    match lookupC cur.children p with
    | none => false
    | some c => c.is_dir && dirPathOkB c ps

/-- Pure update of the node at an existing directory path (what `_mkdirs`
plus the caller's mutation of the returned node amounts to when the whole
path already exists as directories). -/
def updAt (cur : VFSNode) : List Str → (VFSNode → VFSNode) → VFSNode
  | [], f => f cur
  | p :: ps, f =>
    cur.setCh p (updAt ((lookupC cur.children p).getD rootNode) ps f)

/-! ## Supporting lemmas -/

theorem lookupC_setChild_self (ch : List (Str × VFSNode)) (k : Str)
    (n : VFSNode) : lookupC (setChild ch k n) k = some n := by
  induction ch with
  | nil => simp [setChild, lookupC]
  | cons hd tl ih =>
    obtain ⟨k', v⟩ := hd
    by_cases h : k' = k
    · simp [setChild, h, lookupC]
    · simp [setChild, h, lookupC, ih]

theorem lookupC_setChild_ne (ch : List (Str × VFSNode)) (k q : Str)
    (n : VFSNode) (h : q ≠ k) :
    lookupC (setChild ch k n) q = lookupC ch q := by
  have hkq : ¬ k = q := fun hh => h hh.symm
  induction ch with
  | nil => simp [setChild, lookupC, hkq]
  | cons hd tl ih =>
    obtain ⟨k', v⟩ := hd
    by_cases hk : k' = k
    · subst hk
      simp [setChild, lookupC, hkq]
    · by_cases hq : k' = q <;> simp [setChild, hk, lookupC, hq, ih, h]

theorem setCh_children (n : VFSNode) (k : Str) (v : VFSNode) :
    (n.setCh k v).children = setChild n.children k v := by
  cases n; rfl

theorem setCh_type (n : VFSNode) (k : Str) (v : VFSNode) :
    (n.setCh k v).type = n.type := by
  cases n; rfl

/-- Anything the `..`-popping loop emits is either from the accumulator or
a non-`..` input segment. -/
theorem mem_normFold (out l : List Str) (x : Str) (h : x ∈ normFold out l) :
    x ∈ out ∨ (x ∈ l ∧ x ≠ ['.', '.']) := by
  induction l generalizing out with
  | nil => exact .inl h
  | cons p ps ih =>
    by_cases hp : p = ['.', '.']
    · rw [normFold, if_pos hp] at h
      rcases ih _ h with h' | h'
      · exact .inl (List.dropLast_subset _ h')
      · exact .inr ⟨List.mem_cons_of_mem _ h'.1, h'.2⟩
    · rw [normFold, if_neg hp] at h
      rcases ih _ h with h' | h'
      · rcases List.mem_append.1 h' with h'' | h''
        · exact .inl h''
        · simp only [List.mem_singleton] at h''
          exact .inr ⟨h'' ▸ List.mem_cons_self _ _, h'' ▸ hp⟩
      · exact .inr ⟨List.mem_cons_of_mem _ h'.1, h'.2⟩

/-- With no `..` segments in the input, the popping loop appends. -/
theorem normFold_no_dotdot (out : List Str) (l : List Str)
    (h : ∀ x ∈ l, x ≠ ['.', '.']) : normFold out l = out ++ l := by
  induction l generalizing out with
  | nil => simp [normFold]
  | cons p ps ih =>
    rw [normFold, if_neg (h p (List.mem_cons_self _ _))]
    rw [ih _ (fun x hx => h x (List.mem_cons_of_mem _ hx))]
    simp

/-- `splitOnC` never returns the empty list of pieces. -/
theorem splitOnC_ne_nil (sep : Char) (l : Str) : splitOnC sep l ≠ [] := by
  induction l with
  | nil => simp [splitOnC]
  | cons c cs ih =>
    rw [splitOnC]
    by_cases h : c = sep
    · simp [h]
    · rw [if_neg h]
      cases hs : splitOnC sep cs with
      | nil => exact absurd hs ih
      | cons t ts => simp

/-- No piece produced by `splitOnC` contains the separator. -/
theorem splitOnC_no_sep (sep : Char) (l : Str) (s : Str)
    (h : s ∈ splitOnC sep l) : sep ∉ s := by
  induction l generalizing s with
  | nil =>
    simp only [splitOnC, List.mem_singleton] at h
    simp [h]
  | cons c cs ih =>
    rw [splitOnC] at h
    by_cases hc : c = sep
    · rw [if_pos hc] at h
      rcases List.mem_cons.1 h with h' | h'
      · simp [h']
      · exact ih _ h'
    · rw [if_neg hc] at h
      cases hs : splitOnC sep cs with
      | nil => exact absurd hs (splitOnC_ne_nil sep cs)
      | cons t ts =>
        rw [hs] at h
        rcases List.mem_cons.1 h with h' | h'
        · subst h'
          intro hm
          rcases List.mem_cons.1 hm with h'' | h''
          · exact hc h''.symm
          · exact ih t (hs ▸ List.mem_cons_self _ _) h''
        · exact ih s (hs ▸ List.mem_cons_of_mem _ h')

/-- `splitOnC` of a separator-free string is that single piece. -/
theorem splitOnC_single (sep : Char) (l : Str) (h : sep ∉ l) :
    splitOnC sep l = [l] := by
  induction l with
  | nil => rfl
  | cons c cs ih =>
    have hc : ¬ c = sep := fun hh => h (hh ▸ List.mem_cons_self _ _)
    rw [splitOnC, if_neg hc, ih (fun hm => h (List.mem_cons_of_mem _ hm))]

/-- Peeling one separator-free piece off the front of a split. -/
theorem splitOnC_append (sep : Char) (x t : Str) (h : sep ∉ x) :
    splitOnC sep (x ++ sep :: t) = x :: splitOnC sep t := by
  induction x with
  | nil => simp [splitOnC]
  | cons c x' ih =>
    have hc : ¬ c = sep := fun hh => h (hh ▸ List.mem_cons_self _ _)
    rw [List.cons_append, splitOnC, if_neg hc,
        ih (fun hm => h (List.mem_cons_of_mem _ hm))]

/-- `splitOnC` inverts `joinC` on non-empty piece lists whose pieces avoid
the separator. -/
theorem splitOnC_joinC (sep : Char) (pieces : List Str) (hne : pieces ≠ [])
    (h : ∀ s ∈ pieces, sep ∉ s) :
    splitOnC sep (joinC sep pieces) = pieces := by
  induction pieces with
  | nil => exact absurd rfl hne
  | cons x xs ih =>
    cases xs with
    | nil =>
      rw [joinC, splitOnC_single sep x (h x (List.mem_cons_self _ _))]
    | cons y ys =>
      have hne2 : y :: ys ≠ [] := by simp
      rw [joinC, splitOnC_append sep x _ (h x (List.mem_cons_self _ _)),
          ih hne2 (fun s hs => h s (List.mem_cons_of_mem _ hs))]
      exact hne2

/-- `VFS.get`'s walk hits a dead end as soon as it has to step out of a
childless node, and reports `path not found` for the full path. -/
theorem getGo_stuck (all : List Str) (cur : VFSNode) (l : List Str) (j : Nat)
    (n : VFSNode) (hj : j < l.length) (hget : getAt cur (l.take j) = some n)
    (hch : n.children = []) :
    getGo all cur l =
      .error (.keyError ("path not found: ".data ++ renderAbs all)) := by
  induction j generalizing cur l with
  | zero =>
    simp only [List.take_zero, getAt, Option.some.injEq] at hget
    cases l with
    | nil => simp at hj
    | cons p ps =>
      subst hget
      simp [getGo, hch, lookupC]
  | succ j ih =>
    cases l with
    | nil => simp at hj
    | cons p ps =>
      rw [List.take_succ_cons] at hget
      cases hlk : lookupC cur.children p with
      | none => simp [getAt, hlk] at hget
      | some c =>
        simp only [getAt, hlk] at hget
        simp only [getGo, hlk]
        exact ih c ps (by simpa using hj) hget

/-- C1: the claim predicts `NotADirectory` when `ls` resolves through a
file ancestor; on the default tree, `ls /home/user/readme.txt/x` walks
through the file `readme.txt` and in fact fails with the `KeyError`
(`PathNotFound`) of the lookup loop, not with any `NotADirectoryError`. -/
theorem C1_counterexample :
    isNotADirErr
      (cmd_ls load_default_vfs [] ["/home/user/readme.txt/x".data]) = false ∧
    cmd_ls load_default_vfs [] ["/home/user/readme.txt/x".data] =
      Except.error
        (Err.keyError "path not found: /home/user/readme.txt/x".data) :=
  ⟨rfl, rfl⟩

/-- C1 (amended): if lookup reaches an ancestor (non-final) node of the
resolved path that is a file — hence childless in this system — the `ls`
command fails with the `PathNotFound` `KeyError` naming the full intended
absolute path (not with `NotADirectory`). -/
theorem C1_amended (v : VFS) (cwd : List Str) (p : Str) (j : Nat)
    (n : VFSNode) (hj : j < (abspath_parts cwd p).length)
    (hget : getAt v.root ((abspath_parts cwd p).take j) = some n)
    (hfile : n.is_file = true) (hch : n.children = []) :
    cmd_ls v cwd [p] =
      .error (.keyError
        ("path not found: ".data ++ renderAbs (abspath_parts cwd p))) := by
  have hge : VFS.get v cwd p =
      .error (.keyError
        ("path not found: ".data ++ renderAbs (abspath_parts cwd p))) :=
    getGo_stuck _ _ _ j n hj hget hch
  simp [cmd_ls, hge, Bind.bind, Except.bind]

/-- C1 (witness): the amended theorem applied on the default tree to
`ls /home/user/readme.txt/x`, whose third path ancestor is the file
`readme.txt`. -/
theorem C1_witness :
    cmd_ls load_default_vfs [] ["/home/user/readme.txt/x".data] =
      Except.error
        (.keyError "path not found: /home/user/readme.txt/x".data) := by
  exact C1_amended load_default_vfs [] "/home/user/readme.txt/x".data 3
    (VFSNode.mk "readme.txt".data "file".data "user".data
      (some "SGVsbG8gVkZT".data) [])
    (by decide) (by rfl) (by rfl) (by rfl)

/-- C2: the claim (like the spec's end-to-end example) says `ls /` on the
default tree returns `"home/  etc/  var/"`; the code sorts the child names
ascending, so the result is in fact `"etc/  home/  var/"`. -/
theorem C2_counterexample :
    run demoEnv load_default_vfs [] "ls /".data ≠
      RunRes.ok "home/  etc/  var/".data [] := by decide

/-- C2 (amended): on the default tree `ls /` returns
`"etc/  home/  var/"` — the three top-level directory names sorted
ascending, each suffixed with `/`, joined by double spaces. -/
theorem C2_amended :
    run demoEnv load_default_vfs [] "ls /".data =
      RunRes.ok "etc/  home/  var/".data [] := rfl

/-- C9: popping past the root is a clamped no-op — any run of leading `..`
segments at least as long as the accumulator leaves normalization exactly
where an empty accumulator would be — and `chdir([], "..")` succeeds,
yielding the root `[]`. -/
theorem C9_theorem :
    (∀ (acc rest : List Str) (k : Nat), acc.length ≤ k →
      normFold acc (List.replicate k "..".data ++ rest) = normFold [] rest) ∧
    (∀ v : VFS, v.root.is_dir = true → VFS.chdir v [] "..".data = .ok []) := by
  constructor
  · intro acc rest k
    induction k generalizing acc with
    | zero =>
      intro h
      have hacc : acc = [] := List.eq_nil_of_length_eq_zero (Nat.le_zero.1 h)
      subst hacc
      simp
    | succ k ih =>
      intro h
      rw [List.replicate_succ, List.cons_append]
      have hdd : ("..".data : List Char) = ['.', '.'] := rfl
      rw [show normFold acc ("..".data :: (List.replicate k "..".data ++ rest))
          = normFold acc.dropLast (List.replicate k "..".data ++ rest) by
        rw [normFold, if_pos hdd]]
      exact ih acc.dropLast (by
        have := List.length_dropLast acc
        omega)
  · intro v h
    have hparts : abspath_parts [] "..".data = [] := rfl
    simp [VFS.chdir, VFS.get, hparts, getGo, h, Bind.bind, Except.bind]

/-- C9 (witness): the theorem applied with a one-element accumulator and a
single `..`, and with the default tree for the `chdir` part. -/
theorem C9_witness :
    normFold ["a".data] (List.replicate 1 "..".data ++ []) = normFold [] [] ∧
    VFS.chdir load_default_vfs [] "..".data = .ok [] :=
  ⟨C9_theorem.1 ["a".data] [] 1 (by decide),
   C9_theorem.2 load_default_vfs (by rfl)⟩

/-- C10: the claim quantifies over paths that begin with `/` *after
trimming*; but `abspath_parts` tests `startswith("/")` on the untrimmed
string while `_split` strips, so `" /etc"` is treated as relative and its
resolution does depend on the current path. -/
theorem C10_counterexample :
    startsSlash (stripList " /etc".data) = true ∧
    abspath_parts ["home".data] " /etc".data ≠
      abspath_parts [] " /etc".data := by
  exact ⟨rfl, by decide⟩

/-- C10 (amended): for raw paths whose *untrimmed* text begins with `/`,
normalization is independent of the current path. -/
theorem C10_amended (cwd1 cwd2 : List Str) (p : Str)
    (h : startsSlash p = true) :
    abspath_parts cwd1 p = abspath_parts cwd2 p := by
  cases p with
  | nil => simp [startsSlash] at h
  | cons c t =>
    have hc : c = '/' := by simpa [startsSlash] using h
    have h1 : ¬ (c :: t = [] ∨ c :: t = ['.']) := by
      rintro (h' | h')
      · cases h'
      · rw [hc] at h'
        exact absurd (List.head_eq_of_cons_eq h') (by decide)
    have hs : startsSlash (c :: t) = true := by simp [startsSlash, hc]
    rw [abspath_parts, if_neg h1, abspath_parts, if_neg h1]
    simp only [hs, if_true]

/-- C10 (witness): the amended theorem applied to `/etc` under two
different current paths. -/
theorem C10_witness :
    abspath_parts ["home".data] "/etc".data =
      abspath_parts ["x".data] "/etc".data :=
  C10_amended ["home".data] ["x".data] "/etc".data rfl

/-- C7: a tabular import whose header lacks any of the required columns
`path`, `type`, `owner` fails with the header `ImportFormatError`
(`ValueError`) whatever the data rows are — no row is processed and no
node is created, since the result does not depend on `rows` at all. -/
theorem C7_theorem (nm : Str) (hdr : List Str) (rows : List (List Str))
    (h : ¬ ("path".data ∈ hdr ∧ "type".data ∈ hdr ∧ "owner".data ∈ hdr)) :
    from_csv nm (hdr :: rows) = .error (.valueError hdrMsg) := by
  simp only [from_csv, if_neg h]

/-- C7 (witness): a header missing the `owner` column fails with the
header error, for a data row list that would otherwise build nodes. -/
theorem C7_witness :
    from_csv "t".data
      [["path".data, "type".data], ["/a".data, "dir".data]] =
      .error (.valueError hdrMsg) :=
  C7_theorem "t".data ["path".data, "type".data] [["/a".data, "dir".data]]
    (by decide)

/-- C4: the Script Runner processes lines in order; a blank line is
skipped silently; the first line whose execution fails contributes exactly
its echo and one `error: <message>` line, with no later line processed;
and on `["cd /nope", "ls"]` it emits the error for `cd /nope` and never
echoes or executes `ls`. -/
theorem C4_theorem :
    (∀ (env : ShEnv) (v : VFS) (cwd : List Str) (raw : Str)
       (rest : List Str) (e : Err),
       stripList (rstripNl raw) ≠ [] →
       run env v cwd (rstripNl raw) = .err e →
       runScript env v cwd (raw :: rest) =
         [promptStr v cwd ++ rstripNl raw, errLine e]) ∧
    (∀ (env : ShEnv) (v : VFS) (cwd : List Str) (raw : Str)
       (rest : List Str),
       stripList (rstripNl raw) = [] →
       runScript env v cwd (raw :: rest) = runScript env v cwd rest) ∧
    runScript demoEnv load_default_vfs [] ["cd /nope".data, "ls".data] =
      ["default:/$ cd /nope".data,
       "error: 'path not found: /nope'".data] := by
  refine ⟨?_, ?_, rfl⟩
  · intro env v cwd raw rest e hne hrun
    simp [runScript, hne, hrun]
  · intro env v cwd raw rest hbl
    simp [runScript, hbl]

/-- C4 (witness): the abort clause of the theorem applied to the concrete
script `["cd /nope", "ls"]` on the default tree. -/
theorem C4_witness :
    runScript demoEnv load_default_vfs [] ["cd /nope".data, "ls".data] =
      [promptStr load_default_vfs [] ++ rstripNl "cd /nope".data,
       errLine (.keyError "path not found: /nope".data)] :=
  C4_theorem.1 demoEnv load_default_vfs [] "cd /nope".data ["ls".data]
    (.keyError "path not found: /nope".data) (by decide) (by rfl)

/-- C5: the session's current path only changes through a successful `cd`:
whenever `run` returns normally, either the path is unchanged, or the line
tokenized to a `cd` command whose handler succeeded and produced the new
path.  In every other case — another command, a tokenizer error, a failing
`cd` (wrong argument count, `PathNotFound`, `NotADirectory`) — `run`
either keeps the old path or raises without producing a new one. -/
theorem C5_theorem (env : ShEnv) (v : VFS) (cwd : List Str) (line : Str)
    (out : Str) (cwd' : List Str)
    (h : run env v cwd line = .ok out cwd') :
    cwd' = cwd ∨
    ∃ args, shlexSplit (expandVars env.vars (stripList line)) =
        .ok ("cd".data :: args) ∧ cmd_cd v cwd args = .ok cwd' := by
  unfold run at h
  cases hsp : shlexSplit (expandVars env.vars (stripList line)) with
  | error e => rw [hsp] at h; cases h
  | ok toks =>
    rw [hsp] at h
    cases toks with
    | nil =>
      injection h with h1 h2
      exact .inl h2.symm
    | cons cmd args =>
      dsimp only at h
      by_cases h1 : cmd = "exit".data
      · rw [if_pos h1] at h; cases h
      rw [if_neg h1] at h
      by_cases h2 : cmd = "ls".data
      · rw [if_pos h2] at h
        cases hls : cmd_ls v cwd args with
        | ok s => rw [hls] at h; injection h with _ hc; exact .inl hc.symm
        | error e => rw [hls] at h; cases h
      rw [if_neg h2] at h
      by_cases h3 : cmd = "cd".data
      · rw [if_pos h3] at h
        cases hcd : cmd_cd v cwd args with
        | ok c =>
          rw [hcd] at h
          injection h with _ hc
          exact .inr ⟨args, by rw [h3], hc ▸ hcd⟩
        | error e => rw [hcd] at h; cases h
      rw [if_neg h3] at h
      by_cases h4 : cmd = "whoami".data
      · rw [if_pos h4] at h
        cases hw : cmd_whoami env args with
        | ok s => rw [hw] at h; injection h with _ hc; exact .inl hc.symm
        | error e => rw [hw] at h; cases h
      rw [if_neg h4] at h
      by_cases h5 : cmd = "cal".data
      · rw [if_pos h5] at h
        cases hca : cmd_cal env args with
        | ok s => rw [hca] at h; injection h with _ hc; exact .inl hc.symm
        | error e => rw [hca] at h; cases h
      rw [if_neg h5] at h
      by_cases h6 : cmd = "rev".data
      · rw [if_pos h6] at h
        cases hr : cmd_rev args with
        | ok s => rw [hr] at h; injection h with _ hc; exact .inl hc.symm
        | error e => rw [hr] at h; cases h
      rw [if_neg h6] at h
      cases h

/-- C5 (witness): the theorem applied to a `whoami` line (a non-`cd`
command), whose successful run keeps the root as current path. -/
theorem C5_witness :
    ([] : List Str) = [] ∨
    ∃ args, shlexSplit (expandVars demoEnv.vars (stripList "whoami".data)) =
        .ok ("cd".data :: args) ∧
      cmd_cd load_default_vfs [] args = .ok [] :=
  C5_theorem demoEnv load_default_vfs [] "whoami".data "user".data [] rfl

/-- Every segment `_split` produces is non-empty, is not `.`, and contains
no `/`. -/
theorem vsplit_elem (p : Str) (x : Str) (h : x ∈ vsplit p) :
    x ≠ [] ∧ x ≠ ['.'] ∧ '/' ∉ x := by
  simp only [vsplit, List.mem_filter, Bool.and_eq_true, decide_eq_true_eq,
    ne_eq] at h
  exact ⟨h.2.1, h.2.2, splitOnC_no_sep '/' _ x h.1⟩

/-- Well-formedness of the segments `abspath_parts` can output, given a
well-formed current path: non-empty, not `.`, not `..`, slash-free. -/
theorem abspath_elem (cwd : List Str) (p : Str)
    (hwf : ∀ s ∈ cwd, s ≠ [] ∧ s ≠ ['.'] ∧ s ≠ ['.', '.'] ∧ '/' ∉ s)
    (x : Str) (h : x ∈ abspath_parts cwd p) :
    x ≠ [] ∧ x ≠ ['.'] ∧ x ≠ ['.', '.'] ∧ '/' ∉ x := by
  unfold abspath_parts at h
  by_cases h0 : p = [] ∨ p = ['.']
  · rw [if_pos h0] at h
    exact hwf x h
  · rw [if_neg h0] at h
    simp only at h
    rcases mem_normFold _ _ _ h with h' | h'
    · cases h'
    · obtain ⟨hmem, hdd⟩ := h'
      by_cases hs : startsSlash p = true
      · rw [if_pos hs] at hmem
        obtain ⟨a, b, c⟩ := vsplit_elem p x hmem
        exact ⟨a, b, hdd, c⟩
      · rw [if_neg hs] at hmem
        rcases List.mem_append.1 hmem with hm | hm
        · obtain ⟨a, b, _, c⟩ := hwf x hm
          exact ⟨a, b, hdd, c⟩
        · obtain ⟨a, b, c⟩ := vsplit_elem p x hm
          exact ⟨a, b, hdd, c⟩

/-- Stripping a rendered absolute path is the identity when it carries no
trailing whitespace (its head `/` protects the leading side). -/
theorem stripList_renderAbs (r : List Str)
    (htr : rstripSpaces (renderAbs r) = renderAbs r) :
    stripList (renderAbs r) = renderAbs r := by
  have hdrop : (renderAbs r).dropWhile pyIsSpace = renderAbs r := by
    rw [renderAbs, List.dropWhile_cons]
    simp [pyIsSpace]
  show ((((renderAbs r).dropWhile pyIsSpace).reverse.dropWhile
      pyIsSpace)).reverse = renderAbs r
  rw [hdrop]
  exact htr

/-- C8: the claim's unconditional idempotence fails: normalizing
`"a /x/.."` at the root yields the segment `"a "` (with a trailing space),
but rendering it as `"/a "` and normalizing again strips that trailing
space, yielding `"a"`. -/
theorem C8_counterexample :
    abspath_parts [] "a /x/..".data = ["a ".data] ∧
    abspath_parts [] (renderAbs (abspath_parts [] "a /x/..".data)) ≠
      abspath_parts [] "a /x/..".data := by
  exact ⟨rfl, by decide⟩

/-- C8 (amended): normalization is idempotent for well-formed current
paths (segments non-empty, not `.` or `..`, slash-free — true of every
reachable session path) provided the rendered result carries no trailing
whitespace: rendering the normalized segments as `/`-joined text and
normalizing again, under any current path, returns the same segments. -/
theorem C8_amended (cwd : List Str) (p : Str)
    (hwf : ∀ s ∈ cwd, s ≠ [] ∧ s ≠ ['.'] ∧ s ≠ ['.', '.'] ∧ '/' ∉ s)
    (htr : rstripSpaces (renderAbs (abspath_parts cwd p)) =
      renderAbs (abspath_parts cwd p)) (cwd' : List Str) :
    abspath_parts cwd' (renderAbs (abspath_parts cwd p)) =
      abspath_parts cwd p := by
  set r := abspath_parts cwd p with hr
  have helem := abspath_elem cwd p hwf
  rw [← hr] at helem
  have h0 : ¬ (renderAbs r = [] ∨ renderAbs r = ['.']) := by
    rintro (h' | h') <;> rw [renderAbs] at h'
    · cases h'
    · exact absurd (List.head_eq_of_cons_eq h') (by decide)
  have hs : startsSlash (renderAbs r) = true := rfl
  rw [abspath_parts, if_neg h0]
  simp only [hs, if_true]
  have hv : vsplit (renderAbs r) = r := by
    unfold vsplit
    rw [stripList_renderAbs r htr]
    simp only [hs, if_true]
    rw [show (renderAbs r).tail = joinC '/' r from rfl]
    cases hrc : r with
    | nil => rfl
    | cons a as =>
      rw [← hrc, splitOnC_joinC '/' r (by rw [hrc]; simp)
        (fun s hs' => (helem s hs').2.2.2)]
      rw [List.filter_eq_self]
      intro a ha
      have := helem a ha
      simp [this.1, this.2.1]
  rw [hv]
  exact normFold_no_dotdot [] r (fun x hx => (helem x hx).2.2.1)

/-- C8 (witness): the amended theorem applied to `x` resolved under
`["home"]`, re-resolved under `["etc"]`. -/
theorem C8_witness :
    abspath_parts ["etc".data]
      (renderAbs (abspath_parts ["home".data] "x".data)) =
      abspath_parts ["home".data] "x".data :=
  C8_amended ["home".data] "x".data (by decide) (by rfl) ["etc".data]

/-! ## Lemmas about `_mkdirs` for the `add_file` claims -/

theorem dropLast_app_single (ps : List Str) (a : Str) :
    (ps ++ [a]).dropLast = ps := by
  induction ps with
  | nil => rfl
  | cons x xs ih => cases xs <;> simp_all

theorem getLastQ_app_single (ps : List Str) (a : Str) :
    (ps ++ [a]).getLast? = some a := by
  induction ps with
  | nil => rfl
  | cons x xs ih => cases xs <;> simp_all [List.getLast?]

/-- A type-preserving final update keeps the type of the node `_mkdirs`
rebuilds. -/
theorem mkdirsGo_type (parts : List Str) (cur cur' : VFSNode)
    (f : VFSNode → VFSNode) (hf : ∀ n, (f n).type = n.type)
    (h : mkdirsGo cur parts f = .ok cur') : cur'.type = cur.type := by
  cases parts with
  | nil =>
    injection h with h'
    rw [← h']
    exact hf cur
  | cons p ps =>
    rw [mkdirsGo] at h
    by_cases hd : ((lookupC cur.children p).getD
        (.mk p "dir".data "root".data none [])).is_dir = true
    · rw [if_pos hd] at h
      cases hm : mkdirsGo ((lookupC cur.children p).getD
          (.mk p "dir".data "root".data none [])) ps f with
      | ok c' =>
        rw [hm] at h
        injection h with h'
        rw [← h']
        exact setCh_type cur p c'
      | error e => rw [hm] at h; cases h
    · rw [if_neg hd] at h; cases h

/-- On an existing all-directory path, `_mkdirs` succeeds and acts as the
pure path update. -/
theorem mkdirsGo_of_dirPath (parts : List Str) (cur : VFSNode)
    (f : VFSNode → VFSNode) (h : dirPathOkB cur parts = true) :
    mkdirsGo cur parts f = .ok (updAt cur parts f) := by
  induction parts generalizing cur with
  | nil => rfl
  | cons p ps ih =>
    rw [dirPathOkB] at h
    cases hlk : lookupC cur.children p with
    | none => rw [hlk] at h; cases h
    | some c =>
      rw [hlk] at h
      obtain ⟨h1, h2⟩ := Bool.and_eq_true_iff.1 h
      rw [mkdirsGo]
      simp only [hlk, Option.getD_some, h1, if_true, ih c h2]
      rw [updAt, hlk]
      rfl

/-- After a successful `_mkdirs` with a type-preserving final update, the
whole walked path exists as directories. -/
theorem dirPathOkB_after (parts : List Str) (cur cur' : VFSNode)
    (f : VFSNode → VFSNode) (hf : ∀ n, (f n).type = n.type)
    (h : mkdirsGo cur parts f = .ok cur') : dirPathOkB cur' parts = true := by
  induction parts generalizing cur cur' with
  | nil => rfl
  | cons p ps ih =>
    rw [mkdirsGo] at h
    by_cases hd : ((lookupC cur.children p).getD
        (.mk p "dir".data "root".data none [])).is_dir = true
    · rw [if_pos hd] at h
      cases hm : mkdirsGo ((lookupC cur.children p).getD
          (.mk p "dir".data "root".data none [])) ps f with
      | ok c' =>
        rw [hm] at h
        injection h with h'
        rw [← h']
        rw [dirPathOkB, setCh_children, lookupC_setChild_self]
        have ht : c'.is_dir = true := by
          rw [VFSNode.is_dir, mkdirsGo_type ps _ c' f hf hm]
          exact hd
        dsimp only
        rw [ht, ih _ _ hm]
        rfl
      | error e => rw [hm] at h; cases h
    · rw [if_neg hd] at h; cases h

/-- The pure path update reaches and transforms exactly the node at the
end of the path, and the untouched original node is what was there. -/
theorem getAt_updAt (parts : List Str) (cur : VFSNode)
    (f : VFSNode → VFSNode) (h : dirPathOkB cur parts = true) :
    ∃ x, getAt cur parts = some x ∧
      getAt (updAt cur parts f) parts = some (f x) := by
  induction parts generalizing cur with
  | nil => exact ⟨cur, rfl, rfl⟩
  | cons p ps ih =>
    rw [dirPathOkB] at h
    cases hlk : lookupC cur.children p with
    | none => rw [hlk] at h; cases h
    | some c =>
      rw [hlk] at h
      obtain ⟨_, h2⟩ := Bool.and_eq_true_iff.1 h
      obtain ⟨x, hx1, hx2⟩ := ih c h2
      refine ⟨x, ?_, ?_⟩
      · rw [getAt, hlk]; exact hx1
      · rw [updAt, hlk]
        rw [getAt, setCh_children, lookupC_setChild_self]
        simpa using hx2

/-- `getAt` across an appended path. -/
theorem getAt_append (cur : VFSNode) (l1 l2 : List Str) :
    getAt cur (l1 ++ l2) = (getAt cur l1).bind (fun m => getAt m l2) := by
  induction l1 generalizing cur with
  | nil => rfl
  | cons p ps ih =>
    rw [List.cons_append, getAt, getAt]
    cases lookupC cur.children p with
    | none => rfl
    | some c => exact ih c

/-- A directory path of an appended list gives one of the first part. -/
theorem dirPathOkB_of_append (l1 l2 : List Str) (cur : VFSNode)
    (h : dirPathOkB cur (l1 ++ l2) = true) : dirPathOkB cur l1 = true := by
  induction l1 generalizing cur with
  | nil => rfl
  | cons p ps ih =>
    rw [List.cons_append, dirPathOkB] at h
    rw [dirPathOkB]
    cases hlk : lookupC cur.children p with
    | none => rw [hlk] at h; cases h
    | some c =>
      rw [hlk] at h
      dsimp only at h
      obtain ⟨h1, h2⟩ := Bool.and_eq_true_iff.1 h
      dsimp only
      rw [h1, ih c h2]
      rfl

/-- C6: last `add_file` wins and leaves directory siblings alone — after a
successful `add_file` on a non-empty path, a second `add_file` on the same
path succeeds, the node at the path is the file with the second call's
owner and content, and every other child of the parent directory is
unchanged; moreover `add_file` over a path whose nodes all exist as
directories (so the leaf position holds a *directory* of that name)
succeeds and silently replaces that directory by the file — no conflict
error is raised at the leaf. -/
theorem C6_theorem :
    (∀ (v : VFS) (p o1 c1 o2 c2 : Str) (v1 : VFS) (ps : List Str)
       (fname : Str),
      vsplit p = ps ++ [fname] →
      VFS.add_file v p o1 c1 = .ok v1 →
      ∃ v2, VFS.add_file v1 p o2 c2 = .ok v2 ∧
        getAt v2.root (vsplit p) = some (fileNode fname o2 c2) ∧
        ∃ d1 d2, getAt v1.root ps = some d1 ∧ getAt v2.root ps = some d2 ∧
          ∀ q, q ≠ fname → lookupC d2.children q = lookupC d1.children q) ∧
    (∀ (v : VFS) (p o c : Str) (ps : List Str) (fname : Str),
      vsplit p = ps ++ [fname] →
      dirPathOkB v.root (vsplit p) = true →
      ∃ v', VFS.add_file v p o c = .ok v' ∧
        getAt v'.root (vsplit p) = some (fileNode fname o c)) := by
  constructor
  · intro v p o1 c1 o2 c2 v1 ps fname hsplit h2
    rw [VFS.add_file] at h2
    simp only [hsplit, getLastQ_app_single, dropLast_app_single] at h2
    set f1 : VFSNode → VFSNode :=
      fun d => d.setCh fname (fileNode fname o1 c1) with hf1
    have hf1t : ∀ n, (f1 n).type = n.type := fun n => setCh_type _ _ _
    cases hm1 : mkdirsGo v.root ps f1 with
    | error e => rw [hm1] at h2; cases h2
    | ok r1 =>
      rw [hm1] at h2
      injection h2 with h2'
      have hr1 : v1.root = r1 := by rw [← h2']
      have hdp : dirPathOkB r1 ps = true := dirPathOkB_after ps _ _ f1 hf1t hm1
      set f2 : VFSNode → VFSNode :=
        fun d => d.setCh fname (fileNode fname o2 c2) with hf2
      obtain ⟨x, hx1, hx2⟩ := getAt_updAt ps r1 f2 hdp
      refine ⟨⟨v1.name, updAt r1 ps f2⟩, ?_, ?_, x, f2 x, ?_, ?_, ?_⟩
      · rw [VFS.add_file]
        simp only [hsplit, getLastQ_app_single, dropLast_app_single, hr1,
          mkdirsGo_of_dirPath ps r1 f2 hdp]
      · rw [hsplit, getAt_append]
        show ((getAt (updAt r1 ps f2) ps).bind fun m => getAt m [fname]) = _
        rw [hx2]
        show getAt (f2 x) [fname] = some (fileNode fname o2 c2)
        rw [getAt]
        rw [show (f2 x).children = setChild x.children fname
              (fileNode fname o2 c2) from setCh_children _ _ _]
        rw [lookupC_setChild_self]
        rfl
      · rw [hr1]; exact hx1
      · exact hx2
      · intro q hq
        rw [show (f2 x).children = setChild x.children fname
              (fileNode fname o2 c2) from setCh_children _ _ _]
        exact lookupC_setChild_ne _ _ _ _ hq
  · intro v p o c ps fname hsplit hdpAll
    rw [hsplit] at hdpAll
    have hdp : dirPathOkB v.root ps = true :=
      dirPathOkB_of_append ps [fname] _ hdpAll
    set f : VFSNode → VFSNode :=
      fun d => d.setCh fname (fileNode fname o c) with hf
    obtain ⟨x, hx1, hx2⟩ := getAt_updAt ps v.root f hdp
    refine ⟨⟨v.name, updAt v.root ps f⟩, ?_, ?_⟩
    · rw [VFS.add_file]
      simp only [hsplit, getLastQ_app_single, dropLast_app_single,
        mkdirsGo_of_dirPath ps v.root f hdp]
    · rw [hsplit, getAt_append]
      show ((getAt (updAt v.root ps f) ps).bind fun m => getAt m [fname]) = _
      rw [hx2]
      show getAt (f x) [fname] = some (fileNode fname o c)
      rw [getAt]
      rw [show (f x).children = setChild x.children fname
            (fileNode fname o c) from setCh_children _ _ _]
      rw [lookupC_setChild_self]
      rfl

/-- C6 (witness): both clauses at the path `/a/b` — overwriting a file
twice on a fresh tree, and overwriting an existing directory `/a/b`. -/
theorem C6_witness :
    (∃ v2, VFS.add_file
        ⟨"t".data, VFSNode.mk "/".data "dir".data "root".data none
          [("a".data, VFSNode.mk "a".data "dir".data "root".data none
            [("b".data, fileNode "b".data "u".data "X".data)])]⟩
        "/a/b".data "w".data "Y".data = .ok v2 ∧
      getAt v2.root (vsplit "/a/b".data) =
        some (fileNode "b".data "w".data "Y".data) ∧
      ∃ d1 d2,
        getAt (VFSNode.mk "/".data "dir".data "root".data none
          [("a".data, VFSNode.mk "a".data "dir".data "root".data none
            [("b".data, fileNode "b".data "u".data "X".data)])]) ["a".data] =
          some d1 ∧
        getAt v2.root ["a".data] = some d2 ∧
        ∀ q, q ≠ "b".data →
          lookupC d2.children q = lookupC d1.children q) ∧
    (∃ v', VFS.add_file
        ⟨"t".data, VFSNode.mk "/".data "dir".data "root".data none
          [("a".data, VFSNode.mk "a".data "dir".data "root".data none
            [("b".data, VFSNode.mk "b".data "dir".data "root".data none [])])]⟩
        "/a/b".data "w".data "Y".data = .ok v' ∧
      getAt v'.root (vsplit "/a/b".data) =
        some (fileNode "b".data "w".data "Y".data)) :=
  ⟨C6_theorem.1 ⟨"t".data, rootNode⟩ "/a/b".data "u".data "X".data
      "w".data "Y".data
      ⟨"t".data, VFSNode.mk "/".data "dir".data "root".data none
        [("a".data, VFSNode.mk "a".data "dir".data "root".data none
          [("b".data, fileNode "b".data "u".data "X".data)])]⟩
      ["a".data] "b".data (by rfl) (by rfl),
   C6_theorem.2
      ⟨"t".data, VFSNode.mk "/".data "dir".data "root".data none
        [("a".data, VFSNode.mk "a".data "dir".data "root".data none
          [("b".data, VFSNode.mk "b".data "dir".data "root".data none [])])]⟩
      "/a/b".data "w".data "Y".data ["a".data] "b".data (by rfl) (by rfl)⟩

/-- The row loop distributes over an appended record list. -/
theorem fromCsvAux_append (fns : List Str) (i : Nat) (v : VFS)
    (l1 l2 : List (List Str)) :
    fromCsvAux fns i v (l1 ++ l2) =
      match fromCsvAux fns i v l1 with
      | .ok (i', v') => fromCsvAux fns i' v' l2
      | .error e => .error e := by
  induction l1 generalizing i v with
  | nil => rfl
  | cons r rs ih =>
    rw [List.cons_append, fromCsvAux, fromCsvAux]
    by_cases hr : r = []
    · rw [if_pos hr, if_pos hr, ih]
    · rw [if_neg hr, if_neg hr]
      cases rowStep fns i v r with
      | ok v' => exact ih _ _
      | error e => rfl

/-- An empty record has no column values. -/
theorem colValue_nil (fns : List Str) (col : Str) :
    colValue fns [] col = none := by
  rw [colValue]
  cases lastIdxOf fns col with
  | none => rfl
  | some i => simp

/-- C3: a `file` row whose present `content_b64` value does not decode as
base64 aborts the load with the row-numbered `ImportFormatError`
(`ValueError` whose message opens with `row <n>: `, the header counting as
row 1 and the first data row as row 2), provided the earlier rows were
processed successfully. -/
theorem C3_theorem (nm : Str) (hdr : List Str) (records : List (List Str))
    (j : Nat) (v' : VFS) (r : List Str)
    (hhdr : "path".data ∈ hdr ∧ "type".data ∈ hdr ∧ "owner".data ∈ hdr)
    (hpre : fromCsvAux hdr 2 ⟨nm, rootNode⟩ (records.take j) =
      .ok (j + 2, v'))
    (hj : records.get? j = some r)
    (ht : stripList (orDefault (colValue hdr r "type".data) []) =
      "file".data)
    (hc1 : stripList (orDefault (colValue hdr r "content_b64".data) []) ≠ [])
    (hc2 : b64Valid
      (stripList (orDefault (colValue hdr r "content_b64".data) [])) =
      false) :
    ∃ tail, from_csv nm (hdr :: records) =
      .error (.valueError
        ("row ".data ++ natChars (j + 2) ++ ": ".data ++ tail)) := by
  have hrne : r ≠ [] := by
    intro h0
    rw [h0, colValue_nil] at ht
    exact absurd ht (by decide)
  have hstep : ∃ tail, rowStep hdr (j + 2) v' r =
      .error (.valueError
        ("row ".data ++ natChars (j + 2) ++ ": ".data ++ tail)) := by
    rw [rowStep]
    by_cases hp : stripList (orDefault (colValue hdr r "path".data) []) = []
    · refine ⟨"bad values".data, ?_⟩
      rw [if_pos (Or.inl hp)]
      rw [badValuesMsg]
      simp
    · refine ⟨"content_b64 not valid base64".data, ?_⟩
      have hcond : ¬ (stripList (orDefault (colValue hdr r "path".data) [])
          = [] ∨
          ¬ (stripList (orDefault (colValue hdr r "type".data) []) =
              "dir".data ∨
            stripList (orDefault (colValue hdr r "type".data) []) =
              "file".data)) := by
        rw [ht]
        simp [hp]
      rw [if_neg hcond, ht, if_neg (by decide :
        ¬ ("file".data : List Char) = "dir".data), if_pos ⟨hc1, hc2⟩]
      rw [badB64Msg]
      simp
  obtain ⟨tail, hstep⟩ := hstep
  refine ⟨tail, ?_⟩
  rw [from_csv, if_pos hhdr]
  conv_lhs => rw [← List.take_append_drop j records]
  rw [fromCsvAux_append, hpre]
  dsimp only
  have hlt : j < records.length := (List.get?_eq_some.1 hj).1
  rw [List.drop_eq_get_cons hlt] at *
  have hget : records.get ⟨j, hlt⟩ = r := by
    have := (List.get?_eq_some.1 hj).2
    exact this
  rw [show fromCsvAux hdr (j + 2) v'
        (records.get ⟨j, hlt⟩ :: records.drop (j + 1)) =
      fromCsvAux hdr (j + 2) v' (r :: records.drop (j + 1)) by rw [hget]]
  rw [fromCsvAux, if_neg hrne, hstep]
  rfl

/-- C3 (witness): a one-row CSV whose file row carries the invalid base64
text `AB` fails with the message naming row 2. -/
theorem C3_witness :
    ∃ tail, from_csv "t".data
      [["path".data, "type".data, "owner".data, "content_b64".data],
       ["/a".data, "file".data, "u".data, "AB".data]] =
      .error (.valueError
        ("row ".data ++ natChars (0 + 2) ++ ": ".data ++ tail)) :=
  C3_theorem "t".data
    ["path".data, "type".data, "owner".data, "content_b64".data]
    [["/a".data, "file".data, "u".data, "AB".data]] 0
    ⟨"t".data, rootNode⟩ ["/a".data, "file".data, "u".data, "AB".data]
    (by decide) (by rfl) (by rfl) (by rfl) (by decide) (by rfl)

end Emu
